import Mathlib

/-!
Verification of the request-signature introspection core
(`ninja/signature/details.py`): source-kind inference for handler
parameters, flatten-map construction for nested structured models,
collection-field detection, per-source schema synthesis and path-parameter
validation.  Python runtime values (annotations, classes, defaults) are
shallowly embedded as inductive types; Python exceptions are embedded with
`Except`.
-/

set_option autoImplicit false

/-- Embeds the Python exceptions that the code under study can raise:
`TypeError` (from `issubclass` on a non-class), `AttributeError` (missing
attribute such as `__args__` or `__fields__`), `KeyError` / `IndexError`
(dict / list access), `AssertionError` (failed `assert`, with its message)
and the library's `ConfigError` (with its message). -/
inductive PyErr where
  | typeError
  | attributeError
  | keyError
  | indexError
  | assertionError (msg : String)
  | configError (msg : String)
  deriving DecidableEq

mutual

/-- Embeds the Python values used as type annotations: plain classes
(`str`, `int`, `NoneType`, the Ellipsis type, `HttpRequest`,
`UploadedFile`, bare `list`/`set`/`tuple`), parameterized generic aliases
(`List[T]`, `Set[T]`, `Tuple[T]`), `typing.Any`, pydantic model classes
(with their ordered `__fields__`), and arbitrary non-class non-generic
values (`nonClass`). -/
inductive Ty where
  | str
  | intTy
  | noneTy
  | ellipsisTy
  | httpRequest
  | uploadedFile
  | anyTy
  | bareList
  | bareSet
  | bareTuple
  | listOf (t : Ty)
  | setOf (t : Ty)
  | tupleOf (t : Ty)
  | nonClass (ident : Nat)
  | model (nm : String) (fields : List PField)

/-- Embeds one pydantic `ModelField`: its name, its `alias`, its inner
`type_` (collections/optionals unwrapped) and its declared `outer_type_`. -/
inductive PField where
  | mk (fname : String) (falias : String) (ftype : Ty) (fouter : Ty)

end

def PField.fname : PField → String
  | .mk n _ _ _ => n

def PField.falias : PField → String
  | .mk _ a _ _ => a

def PField.ftype : PField → Ty
  | .mk _ _ t _ => t

def PField.fouter : PField → Ty
  | .mk _ _ _ o => o

/-- Which embedded Python values are classes (acceptable first argument of
`issubclass`).  Parameterized generic aliases, `typing.Any` and non-class
values are not classes; `issubclass` raises `TypeError` on them. -/
def isClass : Ty → Bool
  | .str | .intTy | .noneTy | .ellipsisTy | .httpRequest | .uploadedFile
  | .bareList | .bareSet | .bareTuple | .model _ _ => true
  | _ => false

/-- Among the embedded classes, exactly `list`, `set` and `tuple` are
(subclasses of) the collection classes `(List, list, set, tuple)`. -/
def isBareCollection : Ty → Bool
  | .bareList | .bareSet | .bareTuple => true
  | _ => false

/-- Among the embedded classes, exactly the pydantic model classes are
subclasses of `pydantic.BaseModel`. -/
def isModelClass : Ty → Bool
  | .model _ _ => true
  | _ => false

/-- Modelled from the spec: the generic-origin extraction
(`ninja.compatibility.util.get_origin`, not part of the excerpt) "must
inspect generic-origin metadata for parameterized collection types": it
returns the bare origin class of a parameterized generic alias and `None`
otherwise. -/
def get_collection_origin : Ty → Option Ty
  | .listOf _ => some .bareList
  | .setOf _ => some .bareSet
  | .tupleOf _ => some .bareTuple
  | _ => none

/-- Embeds `issubclass(cls, pydantic.BaseModel)`: raises `TypeError` when
`cls` is not a class. -/
def pyIsSubclassOfBaseModel (cls : Ty) : Except PyErr Bool :=
  if isClass cls then .ok (isModelClass cls) else .error .typeError

/-- Embeds `is_pydantic_model`: the `issubclass` test with `TypeError`
caught and turned into `False`. -/
def is_pydantic_model (cls : Ty) : Bool :=
  match pyIsSubclassOfBaseModel cls with
  | .ok b => b
  | .error _ => false

/-- Embeds `is_collection_type`: consult the generic origin; when there is
none, run `issubclass(annotation, (List, list, set, tuple))` unguarded, so
a non-class input raises `TypeError`. -/
def is_collection_type (annot : Ty) : Except PyErr Bool :=
  match get_collection_origin annot with
  | none => if isClass annot then .ok (isBareCollection annot) else .error .typeError
  | some origin => .ok (isBareCollection origin)

/-- The parameter-source marker classes of `ninja.params` (`_Request`,
`Path`, `Query`, `Header`, `Cookie`, `Form`, `File`, `Body`,
`_MultiPartBody`), used as grouping keys by `_create_models`. -/
inductive SourceCls where
  | requestCls
  | pathCls
  | queryCls
  | headerCls
  | cookieCls
  | formCls
  | fileCls
  | bodyCls
  | multiPartBodyCls
  deriving DecidableEq

/-- Modelled from the spec: each marker class carries a "source kind" tag
string (`cls._param_source()`, defined outside the excerpt).  The tags are
the ones `_create_models` dispatches on: `"_request"`, `"path"`,
`"query"`, `"header"`, `"cookie"`, `"form"`, `"file"`, `"body"`; the
retagged `_MultiPartBody` class reaches the `body` branch of
`_create_models` and passes its `assert _param_source == "body"`, so its
tag is `"body"`. -/
def param_source_tag : SourceCls → String
  | .requestCls => "_request"
  | .pathCls => "path"
  | .queryCls => "query"
  | .headerCls => "header"
  | .cookieCls => "cookie"
  | .formCls => "form"
  | .fileCls => "file"
  | .bodyCls => "body"
  | .multiPartBodyCls => "body"

/-- The default value carried inside a marker: `...` (required), `None`,
or an ordinary value represented by its runtime type. -/
inductive MDefault where
  | mEllipsis
  | mNone
  | mValue (t : Ty)

/-- Modelled from the spec: a parameter-source marker instance
(`ninja.params.Param` subclass instance) carries a wire alias override
and a default value; its class determines the source kind. -/
structure ParamMarker where
  cls : SourceCls
  al : Option String
  dflt : MDefault

/-- The default value of a reflected parameter: absent
(`signature.empty`), `None`, `Ellipsis`, a source-marker instance, or an
ordinary value represented by its runtime type. -/
inductive ArgDefault where
  | empty
  | dNone
  | dEllipsis
  | marker (m : ParamMarker)
  | value (t : Ty)

/-- Embeds the `FuncParam` namedtuple
`(name, alias, source, annotation, is_collection)`. -/
structure FuncParam where
  name : String
  al : String
  source : ParamMarker
  annot : Ty
  is_collection : Bool

/-- Python dict lookup `d[k]`/`d.get(k)` on an insertion-ordered
association list. -/
def dlookup {K V : Type} [DecidableEq K] (d : List (K × V)) (k : K) : Option V :=
  match d with
  | [] => none
  | (k2, v) :: rest => if k2 = k then some v else dlookup rest k

/-- Python dict assignment `d[k] = v`: replaces in place when the key
exists, otherwise appends at the end of the iteration order. -/
def dset {K V : Type} [DecidableEq K] (d : List (K × V)) (k : K) (v : V) : List (K × V) :=
  match d with
  | [] => [(k, v)]
  | (k2, v2) :: rest => if k2 = k then (k2, v) :: rest else (k2, v2) :: dset rest k v

/-- Python dict key removal (`d.pop(k)` for its removal effect). -/
def dremove {K V : Type} [DecidableEq K] (d : List (K × V)) (k : K) : List (K × V) :=
  match d with
  | [] => []
  | (k2, v2) :: rest => if k2 = k then dremove rest k else (k2, v2) :: dremove rest k

/-- The `FLATTEN_PATH_SEP` character, ASCII Record Separator. -/
def sepChar : Char := '\x1e'

/-- Embeds `ViewSignature.FLATTEN_PATH_SEP = "\x1e"`. -/
def FLATTEN_PATH_SEP : String := "\x1e"

/-- Models Python's `s.split(sep)` for the one-character separator
`FLATTEN_PATH_SEP`, on the character list of the string: split at every
occurrence of the separator, keeping empty pieces. -/
def splitCh (sep : Char) : List Char → List (List Char)
  | [] => [[]]
  | c :: rest =>
      let r := splitCh sep rest
      if c = sep then [] :: r
      else
        match r with
        | [] => [[c]]
        | h :: t2 => (c :: h) :: t2

/-- Embeds `path.split(ViewSignature.FLATTEN_PATH_SEP)`. -/
def pySplit (s : String) : List String :=
  (splitCh sepChar s.data).map (fun l => ⟨l⟩)

mutual

/-- Embeds `ViewSignature._model_flatten_map(model, prefix)`: iterate the
model's `__fields__` in order; for each field build
`name = prefix + SEP + field.alias`; recurse when `field.type_` is a
pydantic model, otherwise yield `(field.alias, name)`. -/
def model_flatten_map : Ty → String → List (String × String)
  | .model _ fs, pre => fieldsWalk fs pre
  | _, _ => []

/-- One iteration of the `for field in model.__fields__.values()` loop of
`_model_flatten_map`. -/
def fieldWalk : PField → String → List (String × String)
  | .mk _ a t _, pre =>
      if is_pydantic_model t then model_flatten_map t (pre ++ FLATTEN_PATH_SEP ++ a)
      else [(a, pre ++ FLATTEN_PATH_SEP ++ a)]

/-- The whole `for` loop of `_model_flatten_map`, concatenating the
yielded pairs in order. -/
def fieldsWalk : List PField → String → List (String × String)
  | [], _ => []
  | f :: rest, pre => fieldWalk f pre ++ fieldsWalk rest pre

end

/-- Embeds the inner loop of `_args_flatten_map` over the pairs yielded by
`_model_flatten_map` for one pydantic-model argument named `argName`:
check each flat name against `flatten_map`, raising `ConfigError` naming
the recorded prior parameter and `argName` on a duplicate, else insert
`(name, tuple(path.split(SEP)))` into `flatten_map` and `(name, argName)`
into `arg_names`. -/
def insertModelEntries (argName : String) :
    List (String × String) → List (String × List String) → List (String × String) →
    Except PyErr (List (String × List String) × List (String × String))
  | [], fm, an => .ok (fm, an)
  | (nm, path) :: rest, fm, an =>
      if (dlookup fm nm).isSome then
        match dlookup an nm with
        | some prior =>
            .error (.configError
              ("Duplicated name: '" ++ nm ++ "' in params: '" ++ prior ++ "' & '" ++ argName ++ "'"))
        | none => .error .keyError
      else
        insertModelEntries argName rest (fm ++ [(nm, pySplit path)]) (an ++ [(nm, argName)])

/-- Embeds the `for arg in args` loop of `_args_flatten_map`, threading
the `flatten_map` and `arg_names` dicts.  A non-model argument
contributes its alias as key with the one-step path `(alias,)`, recording
the alias itself (not the parameter name) in `arg_names`; a duplicate
raises `ConfigError` naming only the recorded prior entry. -/
def argsFlattenGo : List FuncParam → List (String × List String) → List (String × String) →
    Except PyErr (List (String × List String))
  | [], fm, _ => .ok fm
  | arg :: rest, fm, an =>
      if is_pydantic_model arg.annot then
        match insertModelEntries arg.name (model_flatten_map arg.annot arg.al) fm an with
        | .error e => .error e
        | .ok (fm2, an2) => argsFlattenGo rest fm2 an2
      else
        let nm := arg.al
        if (dlookup fm nm).isSome then
          match dlookup an nm with
          | some prior =>
              .error (.configError ("Duplicated name: '" ++ nm ++ "' also in '" ++ prior ++ "'"))
          | none => .error .keyError
        else
          argsFlattenGo rest (fm ++ [(nm, [nm])]) (an ++ [(nm, nm)])

/-- Embeds `ViewSignature._args_flatten_map(args)`. -/
def args_flatten_map (args : List FuncParam) : Except PyErr (List (String × List String)) :=
  argsFlattenGo args [] []

/-- Embeds the `__fields__` attribute access: a pydantic model yields its
field list, anything else raises `AttributeError`. -/
def tyFieldList : Ty → Except PyErr (List PField)
  | .model _ fs => .ok fs
  | _ => .error .attributeError

/-- Embeds `next((a for a in fields.values() if a.alias == attr),
fields.get(attr))`: alias-first lookup with fall-back to the raw field
name. -/
def findFieldAliasFirst (fs : List PField) (attr : String) : Option PField :=
  match fs.find? (fun f => f.falias == attr) with
  | some f => some f
  | none => fs.find? (fun f => f.fname == attr)

/-- Embeds the inner `for attr in path[1:]` loop of
`detect_collection_fields`: at each step take `__fields__` of the current
value (raising `AttributeError` on a non-model or on Python `None`,
embedded as `Option.none`), look the attribute up alias-first, then apply
`getattr(found, "outer_type_", found)` — a found field becomes its
`outer_type_`, an absent one becomes `None`. -/
def walkAttrs : List String → Option Ty → Except PyErr (Option Ty)
  | [], cur => .ok cur
  | attr :: rest, cur =>
      match cur with
      | none => .error .attributeError
      | some t =>
          match tyFieldList t with
          | .error e => .error e
          | .ok fs =>
              match findFieldAliasFirst fs attr with
              | some f => walkAttrs rest (some f.fouter)
              | none => walkAttrs rest none

/-- Embeds `args_d[path[0]].annotation` followed by the attribute walk
over `path[1:]`. -/
def resolvePathTy (args_d : List (String × FuncParam)) : List String → Except PyErr (Option Ty)
  | [] => .error .indexError
  | p0 :: rest =>
      match dlookup args_d p0 with
      | none => .error .keyError
      | some arg => walkAttrs rest (some arg.annot)

/-- Embeds the final `is_collection_type(annotation_or_field)` test of the
loop body; on Python `None` the `issubclass` inside raises `TypeError`. -/
def collectionTestOpt : Option Ty → Except PyErr Bool
  | none => .error .typeError
  | some t => is_collection_type t

/-- Embeds `args_d = {arg.alias: arg for arg in args}` (later bindings
overwrite earlier ones). -/
def buildArgsD (args : List FuncParam) : List (String × FuncParam) :=
  args.foldl (fun d a => dset d a.al a) []

/-- Embeds `path[-1]` for the non-empty paths reaching it. -/
def pathLast (p : List String) : String := p.getLastD ""

/-- Embeds the `for path in (p for p in flatten_map.values() if len(p) > 1)`
loop of `detect_collection_fields`, appending `path[-1]` whenever the
resolved leaf is a collection type. -/
def detectLoop (args_d : List (String × FuncParam)) :
    List (List String) → List String → Except PyErr (List String)
  | [], acc => .ok acc
  | path :: rest, acc =>
      match resolvePathTy args_d path with
      | .error e => .error e
      | .ok cur =>
          match collectionTestOpt cur with
          | .error e => .error e
          | .ok b =>
              if b then detectLoop args_d rest (acc ++ [pathLast path])
              else detectLoop args_d rest acc

/-- Embeds `detect_collection_fields(args, flatten_map)`. -/
def detect_collection_fields (args : List FuncParam)
    (flatten_map : List (String × List String)) : Except PyErr (List String) :=
  let result := (args.filter (fun p => p.is_collection)).map (fun p => p.name)
  if flatten_map.isEmpty then .ok result
  else
    detectLoop (buildArgsD args)
      ((flatten_map.map (fun kv => kv.2)).filter (fun p => decide (1 < p.length))) result

/-- Embeds Python truthiness of `arg.default == self.signature.empty`. -/
def isEmptyDefault : ArgDefault → Bool
  | .empty => true
  | _ => false

/-- Embeds `arg.default is None`. -/
def isNoneDefault : ArgDefault → Bool
  | .dNone => true
  | _ => false

/-- Embeds `param_source.alias or name`: Python `or` falls through on
`None` and on the falsy empty string. -/
def aliasOrName (al : Option String) (name : String) : String :=
  match al with
  | some a => if a = "" then name else a
  | none => name

/-- Embeds `type(arg.default.default)`: the runtime type of the default
carried inside a marker (`type(None)` is `NoneType`, `type(...)` is the
Ellipsis type, a plain value has its own runtime type). -/
def typeOfMDefault : MDefault → Ty
  | .mEllipsis => .ellipsisTy
  | .mNone => .noneTy
  | .mValue t => t

/-- Embeds `ViewSignature._is_http_request_arg(pos, name, arg)`: the
annotation is `HttpRequest`, or the parameter is unannotated, named
`"request"`, first in position, and without default. -/
def _is_http_request_arg (pos : Nat) (name : String) (annot : Option Ty)
    (dflt : ArgDefault) : Bool :=
  match annot with
  | some .httpRequest => true
  | some _ => false
  | none => name == "request" && pos == 0 && isEmptyDefault dflt

/-- Embeds lines 186–203 of `_get_param_type`: force the annotation to
`HttpRequest` for a request argument, infer a missing annotation from the
default (the marker's inner default's type, the default's own type, or
`str` when there is no default at all), then collapse `NoneType` and the
Ellipsis type to `str`. -/
def resolveAnnot (isReq : Bool) (annot : Option Ty) (dflt : ArgDefault) : Ty :=
  let a1 : Ty :=
    match (if isReq then some Ty.httpRequest else annot) with
    | some t => t
    | none =>
        match dflt with
        | .empty => .str
        | .marker m => typeOfMDefault m.dflt
        | .dNone => .noneTy
        | .dEllipsis => .ellipsisTy
        | .value t => t
  match a1 with
  | .noneTy => .str
  | .ellipsisTy => .str
  | t => t

/-- Embeds `annotation.__args__[0]`: defined on parameterized generic
aliases, `AttributeError` on anything else (in particular on the bare
`list`, `set`, `tuple` classes). -/
def tyArgs0 : Ty → Except PyErr Ty
  | .listOf t => .ok t
  | .setOf t => .ok t
  | .tupleOf t => .ok t
  | _ => .error .attributeError

def isUploadedFileTy : Ty → Bool
  | .uploadedFile => true
  | _ => false

/-- Embeds the short-circuit condition
`annotation == UploadedFile or (is_collection and annotation.__args__[0] == UploadedFile)`. -/
def uploadedFileCheck (annot : Ty) (is_coll : Bool) : Except PyErr Bool :=
  if isUploadedFileTy annot then .ok true
  else if is_coll then
    match tyArgs0 annot with
    | .error e => .error e
    | .ok t0 => .ok (isUploadedFileTy t0)
  else .ok false

/-- The `params._Request(...)` marker constructed for request arguments. -/
def requestMarker : ParamMarker := ⟨.requestCls, none, .mEllipsis⟩

/-- The `params.Path(...)` marker injected for path parameters. -/
def pathRequiredMarker : ParamMarker := ⟨.pathCls, none, .mEllipsis⟩

/-- The marker default used for `Body(arg.default)` / `Query(arg.default)`
in branches where the default is known to be non-empty and not itself a
marker; the `empty` and `marker` cases never reach this conversion in the
source and are mapped to `...`. -/
def markerDefaultOf : ArgDefault → MDefault
  | .empty => .mEllipsis
  | .dNone => .mNone
  | .dEllipsis => .mEllipsis
  | .marker _ => .mEllipsis
  | .value t => .mValue t

/-- Embeds `ViewSignature._get_param_type(pos, name, arg)` for a view
bound to path parameters `path_params_names`.  The precedence order is
the source's: request detection and annotation inference, the
uploaded-file auto-promotion, then the `HttpRequest` /
explicit-marker / path / body-fallback / query-fallback chain.  The
`assert` on a path parameter with a default raises `AssertionError`. -/
def _get_param_type (path_params_names : List String) (pos : Nat) (name : String)
    (annot : Option Ty) (dflt : ArgDefault) : Except PyErr FuncParam :=
  let a := resolveAnnot (_is_http_request_arg pos name annot dflt) annot dflt
  match is_collection_type a with
  | .error e => .error e
  | .ok is_coll =>
      match uploadedFileCheck a is_coll with
      | .error e => .error e
      | .ok fileMatch =>
          if fileMatch && (isEmptyDefault dflt || isNoneDefault dflt) then
            let d : MDefault := if isEmptyDefault dflt then .mEllipsis else .mNone
            .ok ⟨name, name, ⟨.fileCls, none, d⟩, a, is_coll⟩
          else
            match a with
            | .httpRequest =>
                .ok ⟨name, aliasOrName requestMarker.al name, requestMarker, .anyTy, is_coll⟩
            | _ =>
                match dflt with
                | .marker m => .ok ⟨name, aliasOrName m.al name, m, a, is_coll⟩
                | _ =>
                    if name ∈ path_params_names then
                      if isEmptyDefault dflt then
                        .ok ⟨name, aliasOrName pathRequiredMarker.al name,
                             pathRequiredMarker, a, is_coll⟩
                      else
                        .error (.assertionError
                          ("'" ++ name ++ "' is a path param, default not allowed"))
                    else if is_coll || is_pydantic_model a then
                      let src : ParamMarker := ⟨.bodyCls, none, markerDefaultOf dflt⟩
                      .ok ⟨name, aliasOrName src.al name, src, a, is_coll⟩
                    else
                      let src : ParamMarker := ⟨.queryCls, none, markerDefaultOf dflt⟩
                      .ok ⟨name, aliasOrName src.al name, src, a, is_coll⟩

/-- Embeds the `_ninja_contribute_args` merge in `ViewSignature.__init__`:
`FuncParam(p_name, p_source.alias or p_name, p_source, p_type, False)` —
the collection flag is hard-coded `False`. -/
def contribFuncParam (p_name : String) (p_type : Ty) (p_source : ParamMarker) : FuncParam :=
  ⟨p_name, aliasOrName p_source.al p_name, p_source, p_type, false⟩

/-- Embeds one synthesized schema class of `_create_models`: the marker
class it was built for, its `_param_source` tag, `_flatten_map`,
`_flatten_map_reverse`, the optional `_single_attr` attribute (whose value
may itself be Python `None`), the optional `_body_params` mapping,
`__annotations__`, and `_collection_fields`. -/
structure ModelCls where
  cls : SourceCls
  param_source : String
  flatten_map : List (String × List String)
  flatten_map_reverse : List (List String × List String)
  single_attr : Option (Option String)
  body_params : Option (List (String × Ty))
  annots : List (String × Ty)
  collection_fields : List String

/-- Embeds the `params_by_source_cls` defaultdict construction: group the
parameters by `type(param.source)`, keys in first-appearance order, each
group keeping parameter order. -/
def groupGo : List FuncParam → List (SourceCls × List FuncParam) →
    List (SourceCls × List FuncParam)
  | [], acc => acc
  | p :: rest, acc =>
      let k := p.source.cls
      match dlookup acc k with
      | some l => groupGo rest (dset acc k (l ++ [p]))
      | none => groupGo rest (acc ++ [(k, [p])])

def groupBySourceCls (params : List FuncParam) : List (SourceCls × List FuncParam) :=
  groupGo params []

/-- Embeds the per-group body of the `for param_cls, args in
params_by_source_cls.items()` loop of `_create_models`: dispatch on the
`_param_source` tag; `"_request"` records `args[0].name` as
`_single_attr`; `"file"` adds nothing; the flat sources compute
`_flatten_map` and its reverse `{v: (k,) for k, v in flatten_map.items()}`;
otherwise the tag is asserted to be `"body"` and either `_body_params =
{i.alias: i.annotation}` (multipart case) or `_single_attr = args[0].name
if len(args) == 1 else None` is recorded; finally `__annotations__` and
`_collection_fields` are attached. -/
def buildModelSrc (is_multipart : Bool) (param_cls : SourceCls) (args : List FuncParam) :
    Except PyErr ModelCls :=
  let tag := param_source_tag param_cls
  let base : ModelCls := ⟨param_cls, tag, [], [], none, none, [], []⟩
  if tag = "_request" then
    match args with
    | [] => Except.error PyErr.indexError
    | a0 :: _ => Except.ok { base with single_attr := some (some a0.name) }
  else if tag = "file" then
    Except.ok base
  else if tag ∈ ["form", "query", "header", "cookie", "path"] then
    match args_flatten_map args with
    | .error e => Except.error e
    | .ok fm =>
        Except.ok { base with
          flatten_map := fm
          flatten_map_reverse := fm.map (fun kv => (kv.2, [kv.1])) }
  else if tag ≠ "body" then
    Except.error (PyErr.assertionError "")
  else if is_multipart then
    Except.ok { base with body_params := some (args.map (fun p => (p.al, p.annot))) }
  else
    Except.ok { base with
      single_attr := some (match args with | [a0] => some a0.name | _ => none) }

/-- The tail of the `_create_models` loop body: after the source-specific
attributes, attach `__annotations__` and `_collection_fields`. -/
def buildModel (is_multipart : Bool) (param_cls : SourceCls) (args : List FuncParam) :
    Except PyErr ModelCls :=
  match buildModelSrc is_multipart param_cls args with
  | .error e => .error e
  | .ok withSrc =>
      match detect_collection_fields args withSrc.flatten_map with
      | .error e => .error e
      | .ok cf =>
          .ok { withSrc with
            annots := args.map (fun p => (p.name, p.annot))
            collection_fields := cf }

/-- The `for param_cls, args in params_by_source_cls.items()` loop of
`_create_models`, collecting the synthesized classes in order. -/
def buildAll (is_multipart : Bool) : List (SourceCls × List FuncParam) →
    Except PyErr (List ModelCls)
  | [] => .ok []
  | (k, args) :: rest =>
      match buildModel is_multipart k args with
      | .error e => .error e
      | .ok m =>
          match buildAll is_multipart rest with
          | .error e => .error e
          | .ok ms => .ok (m :: ms)

/-- Embeds `ViewSignature._create_models`: group by marker class, retag a
`Body` group to `_MultiPartBody` (removing the `Body` key and inserting
the retagged one) when a `File` or `Form` group coexists, then synthesize
one schema per group. -/
def create_models (params : List FuncParam) : Except PyErr (List ModelCls) :=
  let groups := groupBySourceCls params
  let is_multipart := (dlookup groups .bodyCls).isSome &&
      ((dlookup groups .fileCls).isSome || (dlookup groups .formCls).isSome)
  let groups2 :=
    if is_multipart then
      dset (dremove groups .bodyCls) .multiPartBodyCls ((dlookup groups .bodyCls).getD [])
    else groups
  buildAll is_multipart groups2

/-- Insertion into a `≤`-sorted list of strings, for Python's `sorted`. -/
def insertSorted (x : String) : List String → List String
  | [] => [x]
  | y :: rest => if x ≤ y then x :: y :: rest else y :: insertSorted x rest

/-- Embeds Python's `sorted` on a list of strings (insertion sort; only
the order and membership matter here). -/
def sortStrs : List String → List String
  | [] => []
  | x :: rest => insertSorted x (sortStrs rest)

/-- Embeds one `warnings.warn_explicit` emission of
`_validate_view_path_params`: the tuple of missing names carried by the
message, attributed to the view function's file and line. -/
structure PathWarning where
  missing : List String
  filename : String
  lineno : Nat

/-- Embeds `path_model and name in path_model._flatten_map` where
`path_model` is the first synthesized model whose `_param_source` is
`"path"`. -/
def pathNameResolves (models : List ModelCls) (name : String) : Bool :=
  match models.find? (fun m => m.param_source == "path") with
  | some m => (dlookup m.flatten_map name).isSome
  | none => false

/-- Embeds `ViewSignature._validate_view_path_params`: when the path
template declares names, collect (sorted) the ones that do not resolve in
the path model's flatten map and emit a single warning naming them,
attributed to the view's source location; no warning otherwise.  The
returned list is the list of emitted warnings. -/
def validate_view_path_params (path_params_names : List String) (models : List ModelCls)
    (filename : String) (lineno : Nat) : List PathWarning :=
  if path_params_names.isEmpty then []
  else
    let missing := sortStrs (path_params_names.filter (fun n => !(pathNameResolves models n)))
    if missing.isEmpty then []
    else [⟨missing, filename, lineno⟩]

/-- Whether a string is free of the flatten separator character. -/
def sepFreeStr (s : String) : Bool := decide (sepChar ∉ s.data)

mutual

/-- All aliases reachable in a type are separator-free. -/
def sepFreeTy : Ty → Bool
  | .model _ fs => sepFreeFields fs
  | _ => true

def sepFreeField : PField → Bool
  | .mk _ a t _ => sepFreeStr a && sepFreeTy t

def sepFreeFields : List PField → Bool
  | [] => true
  | f :: rest => sepFreeField f && sepFreeFields rest

end

mutual

/-- Following the spec's flattening description, with the flat wire name
taken from the source's behaviour: recursively descend the field
definitions of a structured model; a leaf field contributes one entry
keyed by the leaf field's alias whose value is the ordered path of
aliases from the root parameter down to the leaf. -/
def leafEntriesTy : Ty → List String → List (String × List String)
  | .model _ fs, pre => leafEntriesF fs pre
  | _, _ => []

def leafEntryF : PField → List String → List (String × List String)
  | .mk _ a t _, pre =>
      if isModelClass t then leafEntriesTy t (pre ++ [a])
      else [(a, pre ++ [a])]

def leafEntriesF : List PField → List String → List (String × List String)
  | [], _ => []
  | f :: rest, pre => leafEntryF f pre ++ leafEntriesF rest pre

end

/-- The name `sub` occurs (as a contiguous substring) in the message
`msg`. -/
def mentions (msg sub : String) : Prop := sub.data <:+: msg.data

instance (msg sub : String) : Decidable (mentions msg sub) :=
  List.decidableInfix sub.data msg.data

/-! ### Basic lemmas about the embedded dictionaries and classifier -/

theorem is_pydantic_model_eq_isModelClass (t : Ty) : is_pydantic_model t = isModelClass t := by
  cases t <;> rfl

theorem dlookup_append {K V : Type} [DecidableEq K] (d e : List (K × V)) (k : K) :
    dlookup (d ++ e) k = ((dlookup d k).orElse (fun _ => dlookup e k)) := by
  induction d with
  | nil => simp [dlookup, Option.orElse]
  | cons kv rest ih =>
      obtain ⟨k2, v⟩ := kv
      by_cases h : k2 = k <;> simp [dlookup, h, ih, Option.orElse]

theorem dlookup_mem {K V : Type} [DecidableEq K] (d : List (K × V)) (k : K) (v : V)
    (h : dlookup d k = some v) : (k, v) ∈ d := by
  induction d with
  | nil => simp [dlookup] at h
  | cons kv rest ih =>
      obtain ⟨k2, v2⟩ := kv
      by_cases hk : k2 = k
      · subst hk
        simp [dlookup] at h
        simp [h]
      · simp [dlookup, hk] at h
        exact List.mem_cons_of_mem _ (ih h)

/-! ### C10: totality of the type classifiers -/

/-- C10: `is_pydantic_model` is total — on every input it evaluates to the
boolean "is a class derived from the model base" (in particular `false`,
never an exception, on non-class inputs), while `is_collection_type`, on
any input that is neither a class nor a parameterized generic (no generic
origin), raises `TypeError` from the unguarded subclass test instead of
returning `false`. -/
theorem is_pydantic_model_total_is_collection_type_raises (t : Ty) :
    is_pydantic_model t = isModelClass t ∧
      (isClass t = false → get_collection_origin t = none →
        is_collection_type t = .error .typeError) := by
  refine ⟨is_pydantic_model_eq_isModelClass t, fun h1 h2 => ?_⟩
  simp [is_collection_type, h2, h1]

/-- Witness for C10 at the non-class value `nonClass 0`. -/
theorem is_pydantic_model_total_is_collection_type_raises_witness :
    is_pydantic_model (Ty.nonClass 0) = isModelClass (Ty.nonClass 0) ∧
      (isClass (Ty.nonClass 0) = false → get_collection_origin (Ty.nonClass 0) = none →
        is_collection_type (Ty.nonClass 0) = .error .typeError) :=
  is_pydantic_model_total_is_collection_type_raises (Ty.nonClass 0)

/-! ### C9: externally contributed parameters never set the collection flag -/

/-- C9: a parameter merged in through `_ninja_contribute_args` always gets
`is_collection = False` regardless of its contributed type, so the
name-based clause of `detect_collection_fields` never fires for a list of
such parameters (with no flatten map, the detected collection fields are
empty). -/
theorem contrib_params_is_collection_false
    (triples : List (String × Ty × ParamMarker)) :
    (∀ p ∈ triples.map (fun c => contribFuncParam c.1 c.2.1 c.2.2), p.is_collection = false) ∧
      detect_collection_fields (triples.map (fun c => contribFuncParam c.1 c.2.1 c.2.2)) []
        = .ok [] := by
  constructor
  · intro p hp
    obtain ⟨c, _, rfl⟩ := List.mem_map.mp hp
    rfl
  · have hfilter :
        (triples.map (fun c => contribFuncParam c.1 c.2.1 c.2.2)).filter
            (fun p => p.is_collection) = [] := by
      induction triples with
      | nil => rfl
      | cons c rest ih => simpa [contribFuncParam] using ih
    simp [detect_collection_fields, hfilter]

/-- Witness for C9 at a contributed parameter of type `List[int]`. -/
theorem contrib_params_is_collection_false_witness :
    (contribFuncParam "c" (Ty.listOf .intTy)
        ⟨.queryCls, none, .mEllipsis⟩).is_collection = false :=
  (contrib_params_is_collection_false
      [("c", Ty.listOf .intTy, ⟨.queryCls, none, .mEllipsis⟩)]).1 _ (by simp)

/-! ### C1: explicit-marker precedence -/

/-- C1 counterexample: a parameter annotated with the request-object type
whose default is an explicit `Query` marker is classified as
RequestObject, not as the marker's kind — request detection pre-empts the
explicit-marker rule, so the marker does not win "for every annotation". -/
theorem marker_precedence_counterexample :
    _get_param_type [] 0 "x" (some .httpRequest)
        (.marker ⟨.queryCls, none, .mValue .str⟩) =
      .ok ⟨"x", "x", requestMarker, .anyTy, false⟩ ∧
      requestMarker.cls ≠ SourceCls.queryCls := ⟨rfl, by decide⟩

/-- C1 as amended: for every parameter whose default value is a
parameter-source marker instance, whose resolved annotation is not the
request-object type, and on which the collection-type and uploaded-file
checks complete without raising, the inferred source is exactly that
marker (so the `sourceKind` equals the marker's kind), for every
annotation, path-parameter-name clash, collection or structured type. -/
theorem marker_precedence (pp : List String) (pos : Nat) (name : String)
    (annot : Option Ty) (m : ParamMarker) (a : Ty) (c fb : Bool)
    (ha : resolveAnnot (_is_http_request_arg pos name annot (.marker m)) annot (.marker m) = a)
    (hreq : a ≠ Ty.httpRequest)
    (hcoll : is_collection_type a = .ok c)
    (hfile : uploadedFileCheck a c = .ok fb) :
    _get_param_type pp pos name annot (.marker m) =
      .ok ⟨name, aliasOrName m.al name, m, a, c⟩ := by
  unfold _get_param_type
  rw [ha]
  simp only [hcoll, hfile, isEmptyDefault, isNoneDefault, Bool.or_self, Bool.and_false,
    Bool.false_eq_true, if_false]

/-- Witness for C1 (amended) at a header marker with an alias override. -/
theorem marker_precedence_witness :
    _get_param_type [] 1 "x" (some .str)
        (.marker ⟨.headerCls, some "X-Tok", .mValue .str⟩) =
      .ok ⟨"x", "X-Tok", ⟨.headerCls, some "X-Tok", .mValue .str⟩, .str, false⟩ :=
  marker_precedence [] 1 "x" (some .str) ⟨.headerCls, some "X-Tok", .mValue .str⟩
    .str false false rfl (fun h => Ty.noConfusion h) rfl rfl

/-! ### C5: the path-match rule -/

/-- C5: a parameter that reaches the path-match rule (not the request
object, default not an explicit marker, not auto-file-promoted, checks
completing without raising) and whose name is a declared path-template
name is classified Path with the required `(...)` marker injected when it
has no default, and raises the fatal `AssertionError`
`"'<name>' is a path param, default not allowed"` when it declares a
default. -/
theorem path_match_rule (pp : List String) (pos : Nat) (name : String)
    (annot : Option Ty) (dflt : ArgDefault) (a : Ty) (c fb : Bool)
    (ha : resolveAnnot (_is_http_request_arg pos name annot dflt) annot dflt = a)
    (hreq : a ≠ Ty.httpRequest)
    (hcoll : is_collection_type a = .ok c)
    (hfile : uploadedFileCheck a c = .ok fb)
    (hnopromo : (fb && (isEmptyDefault dflt || isNoneDefault dflt)) = false)
    (hnomarker : ∀ m, dflt ≠ .marker m)
    (hpath : name ∈ pp) :
    (dflt = .empty →
        _get_param_type pp pos name annot dflt =
          .ok ⟨name, name, pathRequiredMarker, a, c⟩) ∧
    (dflt ≠ .empty →
        _get_param_type pp pos name annot dflt =
          .error (.assertionError ("'" ++ name ++ "' is a path param, default not allowed"))) := by
  constructor
  · intro hd
    subst hd
    unfold _get_param_type
    rw [ha]
    simp only [hcoll, hfile]
    rw [hnopromo]
    simp only [Bool.false_eq_true, if_false]
    cases a <;> first
      | (simp [hpath, isEmptyDefault, pathRequiredMarker, aliasOrName])
      | exact absurd rfl hreq
  · intro hd
    unfold _get_param_type
    rw [ha]
    simp only [hcoll, hfile]
    rw [hnopromo]
    simp only [Bool.false_eq_true, if_false]
    cases a <;> first
      | exact absurd rfl hreq
      | (cases dflt with
          | empty => exact absurd rfl hd
          | marker m => exact absurd rfl (hnomarker m)
          | dNone => simp [hpath, isEmptyDefault]
          | dEllipsis => simp [hpath, isEmptyDefault]
          | value t => simp [hpath, isEmptyDefault])

/-- Witness for C5: a defaultless parameter named like the path parameter
`"id"` becomes a required Path parameter. -/
theorem path_match_rule_witness :
    _get_param_type ["id"] 0 "id" (some .intTy) .empty =
      .ok ⟨"id", "id", pathRequiredMarker, .intTy, false⟩ :=
  (path_match_rule ["id"] 0 "id" (some .intTy) .empty .intTy false false rfl
      (fun h => Ty.noConfusion h) rfl rfl rfl (fun m h => ArgDefault.noConfusion h)
      (by simp)).1 rfl

/-! ### C6: path-parameter validation warnings -/

theorem mem_insertSorted (x y : String) (l : List String) :
    x ∈ insertSorted y l ↔ x = y ∨ x ∈ l := by
  induction l with
  | nil => simp [insertSorted]
  | cons z rest ih =>
      by_cases h : y ≤ z
      · simp [insertSorted, h]
      · simp [insertSorted, h, ih]
        tauto

theorem mem_sortStrs (x : String) (l : List String) : x ∈ sortStrs l ↔ x ∈ l := by
  induction l with
  | nil => simp [sortStrs]
  | cons y rest ih => simp [sortStrs, mem_insertSorted, ih]

/-- C6: when the path template declares at least one name, path-parameter
validation never raises; it emits no warning when every declared name
resolves (by wire name) in the first path-tagged model's flatten map, and
otherwise emits exactly one warning, attributed to the handler's file and
line, whose missing-name tuple contains exactly the declared names that do
not resolve. -/
theorem validate_path_params_warning (ppn : List String) (models : List ModelCls)
    (filename : String) (lineno : Nat) (hne : ppn ≠ []) :
    ((∀ n ∈ ppn, pathNameResolves models n = true) →
        validate_view_path_params ppn models filename lineno = []) ∧
    ((∃ n ∈ ppn, pathNameResolves models n = false) →
        ∃ w, validate_view_path_params ppn models filename lineno = [w] ∧
          w.filename = filename ∧ w.lineno = lineno ∧
          (∀ x, x ∈ w.missing ↔ x ∈ ppn ∧ pathNameResolves models x = false)) := by
  have hne2 : ppn.isEmpty = false := by
    cases ppn with
    | nil => exact absurd rfl hne
    | cons a l => rfl
  constructor
  · intro hall
    have hfil : ppn.filter (fun n => !(pathNameResolves models n)) = [] := by
      apply List.filter_eq_nil.mpr
      intro n hn
      simp [hall n hn]
    simp [validate_view_path_params, hne2, hfil, sortStrs]
  · intro ⟨n, hn, hnres⟩
    have hmem : n ∈ sortStrs (ppn.filter (fun m => !(pathNameResolves models m))) := by
      rw [mem_sortStrs]
      exact List.mem_filter.mpr ⟨hn, by simp [hnres]⟩
    have hnonnil : (sortStrs (ppn.filter (fun m => !(pathNameResolves models m)))).isEmpty = false := by
      cases h : sortStrs (ppn.filter (fun m => !(pathNameResolves models m))) with
      | nil => rw [h] at hmem; simp at hmem
      | cons a l => rfl
    refine ⟨⟨sortStrs (ppn.filter (fun m => !(pathNameResolves models m))), filename, lineno⟩, ?_, rfl, rfl, ?_⟩
    · simp only [validate_view_path_params, hne2, Bool.false_eq_true, if_false, hnonnil]
    · intro x
      rw [mem_sortStrs, List.mem_filter]
      simp

/-- Witness for C6: path template name `"id"` with no models at all emits
one warning naming `"id"`. -/
theorem validate_path_params_warning_witness :
    ∃ w, validate_view_path_params ["id"] [] "views.py" 12 = [w] ∧
      w.filename = "views.py" ∧ w.lineno = 12 ∧
      (∀ x, x ∈ w.missing ↔ x ∈ ["id"] ∧ pathNameResolves [] x = false) :=
  (validate_path_params_warning ["id"] [] "views.py" 12 (by decide)).2
    ⟨"id", by simp, rfl⟩

/-! ### Dictionary and grouping lemmas for `_create_models` -/

theorem dlookup_dset_self {K V : Type} [DecidableEq K] (d : List (K × V)) (k : K) (v : V) :
    dlookup (dset d k v) k = some v := by
  induction d with
  | nil => simp [dset, dlookup]
  | cons kv rest ih =>
      obtain ⟨k2, v2⟩ := kv
      by_cases h : k2 = k <;> simp [dset, dlookup, h, ih]

theorem dlookup_dset_ne {K V : Type} [DecidableEq K] (d : List (K × V)) (k k2 : K) (v : V)
    (h : k2 ≠ k) : dlookup (dset d k2 v) k = dlookup d k := by
  induction d with
  | nil => simp [dset, dlookup, h]
  | cons kv rest ih =>
      obtain ⟨k3, v3⟩ := kv
      by_cases h3 : k3 = k2
      · subst h3
        simp [dset, dlookup, h]
      · simp only [dset, if_neg h3]
        by_cases h4 : k3 = k <;> simp [dlookup, h4, ih]

theorem mem_dset {K V : Type} [DecidableEq K] (d : List (K × V)) (k : K) (v : V)
    (kv : K × V) (h : kv ∈ dset d k v) : kv ∈ d ∨ kv.1 = k := by
  induction d with
  | nil => simp [dset] at h; simp [h]
  | cons kv2 rest ih =>
      obtain ⟨k2, v2⟩ := kv2
      by_cases h2 : k2 = k
      · subst h2
        simp only [dset, if_pos rfl] at h
        rcases List.mem_cons.mp h with h3 | h3
        · right; rw [h3]
        · left; exact List.mem_cons_of_mem _ h3
      · simp only [dset, if_neg h2] at h
        rcases List.mem_cons.mp h with h3 | h3
        · left; rw [h3]; exact List.mem_cons_self _ _
        · rcases ih h3 with h4 | h4
          · left; exact List.mem_cons_of_mem _ h4
          · right; exact h4

theorem dset_self_mem {K V : Type} [DecidableEq K] (d : List (K × V)) (k : K) (v : V) :
    (k, v) ∈ dset d k v := by
  induction d with
  | nil => simp [dset]
  | cons kv rest ih =>
      obtain ⟨k2, v2⟩ := kv
      by_cases h : k2 = k
      · subst h
        simp [dset]
      · simp only [dset, if_neg h]
        exact List.mem_cons_of_mem _ ih

theorem mem_dremove_ne {K V : Type} [DecidableEq K] (d : List (K × V)) (k : K)
    (kv : K × V) (h : kv ∈ dremove d k) : kv.1 ≠ k := by
  induction d with
  | nil => simp [dremove] at h
  | cons kv2 rest ih =>
      obtain ⟨k2, v2⟩ := kv2
      by_cases h2 : k2 = k
      · subst h2
        simp only [dremove, if_pos rfl] at h
        exact ih h
      · simp only [dremove, if_neg h2] at h
        rcases List.mem_cons.mp h with h3 | h3
        · rw [h3]; exact h2
        · exact ih h3

/-- The parameters of `params` whose marker class is `k` (the group that
`params_by_source_cls` collects under the key `k`). -/
def clsFilter (params : List FuncParam) (k : SourceCls) : List FuncParam :=
  params.filter (fun p => decide (p.source.cls = k))

theorem groupGo_lookup (ps : List FuncParam) (acc : List (SourceCls × List FuncParam))
    (k : SourceCls) :
    dlookup (groupGo ps acc) k =
      match dlookup acc k with
      | some l => some (l ++ clsFilter ps k)
      | none => if (clsFilter ps k).isEmpty then none else some (clsFilter ps k) := by
  induction ps generalizing acc with
  | nil =>
      cases h : dlookup acc k <;> simp [groupGo, clsFilter, h]
  | cons p rest ih =>
      by_cases hk : p.source.cls = k
      · rw [groupGo, hk]
        have hfil : clsFilter (p :: rest) k = p :: clsFilter rest k := by
          simp [clsFilter, hk]
        rw [hfil]
        cases hacc : dlookup acc k with
        | some l =>
            rw [ih, dlookup_dset_self]
            simp
        | none =>
            rw [ih, dlookup_append, hacc]
            simp [dlookup, Option.orElse]
      · rw [groupGo]
        have hfil : clsFilter (p :: rest) k = clsFilter rest k := by
          simp [clsFilter, hk]
        rw [hfil]
        cases hacc : dlookup acc p.source.cls with
        | some l =>
            rw [ih, dlookup_dset_ne _ _ _ _ hk]
        | none =>
            rw [ih, dlookup_append]
            cases h2 : dlookup acc k <;> simp [dlookup, hk, Option.orElse, h2]

theorem groups_lookup (ps : List FuncParam) (k : SourceCls) :
    dlookup (groupBySourceCls ps) k =
      if (clsFilter ps k).isEmpty then none else some (clsFilter ps k) := by
  rw [groupBySourceCls, groupGo_lookup]
  simp [dlookup]

theorem buildModelSrc_shape (imp : Bool) (k : SourceCls) (args : List FuncParam)
    (w : ModelCls) (h : buildModelSrc imp k args = .ok w) :
    w.cls = k ∧ w.param_source = param_source_tag k ∧
      w.flatten_map_reverse = w.flatten_map.map (fun kv => (kv.2, [kv.1])) := by
  cases k <;>
    · simp only [buildModelSrc, param_source_tag] at h
      simp at h
      repeat' split at h
      all_goals first
        | (first
            | subst h
            | (simp only [Except.ok.injEq] at h
               subst h)
           simp [param_source_tag])
        | simp at h

theorem buildModel_shape (imp : Bool) (k : SourceCls) (args : List FuncParam)
    (m : ModelCls) (h : buildModel imp k args = .ok m) :
    ∃ w cf, buildModelSrc imp k args = .ok w ∧
      detect_collection_fields args w.flatten_map = .ok cf ∧
      m = { w with annots := args.map (fun p => (p.name, p.annot)), collection_fields := cf } := by
  unfold buildModel at h
  split at h
  · exact absurd h (by simp)
  · split at h
    · exact absurd h (by simp)
    · simp only [Except.ok.injEq] at h
      subst h
      exact ⟨_, _, by assumption, by assumption, rfl⟩

theorem buildAll_mem (imp : Bool) (gs : List (SourceCls × List FuncParam))
    (ms : List ModelCls) (h : buildAll imp gs = .ok ms) (m : ModelCls) (hm : m ∈ ms) :
    ∃ k args, (k, args) ∈ gs ∧ buildModel imp k args = .ok m := by
  induction gs generalizing ms with
  | nil =>
      simp only [buildAll, Except.ok.injEq] at h
      subst h
      simp at hm
  | cons g rest ih =>
      obtain ⟨k, args⟩ := g
      simp only [buildAll] at h
      split at h
      · exact absurd h (by simp)
      · split at h
        · exact absurd h (by simp)
        · simp only [Except.ok.injEq] at h
          subst h
          rcases List.mem_cons.mp hm with h2 | h2
          · subst h2
            exact ⟨k, args, List.mem_cons_self _ _, by assumption⟩
          · obtain ⟨k2, args2, hg, hb⟩ := ih _ (by assumption) h2
            exact ⟨k2, args2, List.mem_cons_of_mem _ hg, hb⟩

theorem buildAll_exists (imp : Bool) (gs : List (SourceCls × List FuncParam))
    (ms : List ModelCls) (h : buildAll imp gs = .ok ms) (k : SourceCls)
    (args : List FuncParam) (hk : (k, args) ∈ gs) :
    ∃ m ∈ ms, buildModel imp k args = .ok m := by
  induction gs generalizing ms with
  | nil => simp at hk
  | cons g rest ih =>
      obtain ⟨k2, args2⟩ := g
      simp only [buildAll] at h
      split at h
      · exact absurd h (by simp)
      · split at h
        · exact absurd h (by simp)
        · simp only [Except.ok.injEq] at h
          subst h
          rcases List.mem_cons.mp hk with h2 | h2
          · obtain ⟨h3, h4⟩ := Prod.mk.injEq .. ▸ h2
            subst h3
            subst h4
            exact ⟨_, List.mem_cons_self _ _, by assumption⟩
          · obtain ⟨m, hm, hb⟩ := ih _ (by assumption) h2
            exact ⟨m, List.mem_cons_of_mem _ hm, hb⟩

/-! ### C8: the reverse flatten map -/

/-- C8 counterexample: for a query group holding one structured parameter
`p` with leaf field alias `f`, the synthesized `_flatten_map_reverse` is
`{("p", "f"): ("f",)}` — its key is the path tuple and its value the flat
wire name — and not the claimed `flatWireName -> (originalParamName,)`
(which here would map `"f"` to `("p",)`): the recorded one-element tuple
is `("f",)`, not `("p",)`. -/
theorem flatten_map_reverse_counterexample :
    create_models
        [⟨"p", "p", ⟨.queryCls, none, .mEllipsis⟩,
          Ty.model "MA" [.mk "f" "f" .str .str], false⟩] =
      .ok [⟨.queryCls, "query", [("f", ["p", "f"])], [(["p", "f"], ["f"])], none, none,
            [("p", Ty.model "MA" [.mk "f" "f" .str .str])], []⟩] ∧
      (["f"] : List String) ≠ ["p"] := ⟨rfl, by decide⟩

/-- C8 as amended: for every synthesized schema of every handler, the
reverse flatten map is the flatten map with each entry turned around into
a one-element tuple of its flat wire name: it maps each path tuple `v` of
`_flatten_map` to `(k,)` where `k` is the flat wire-level name keying `v`
(not the original parameter name). -/
theorem flatten_map_reverse_spec (params : List FuncParam) (models : List ModelCls)
    (h : create_models params = .ok models) (m : ModelCls) (hm : m ∈ models) :
    m.flatten_map_reverse = m.flatten_map.map (fun kv => (kv.2, [kv.1])) := by
  unfold create_models at h
  obtain ⟨k, args, _, hb⟩ := buildAll_mem _ _ _ h m hm
  obtain ⟨w, cf, hw, _, hmw⟩ := buildModel_shape _ _ _ _ hb
  obtain ⟨_, _, hrev⟩ := buildModelSrc_shape _ _ _ _ hw
  subst hmw
  simpa using hrev

/-- Witness for C8 (amended) at the counterexample group. -/
theorem flatten_map_reverse_spec_witness :
    (ModelCls.mk .queryCls "query" [("f", ["p", "f"])] [(["p", "f"], ["f"])] none none
        [("p", Ty.model "MA" [.mk "f" "f" .str .str])] []).flatten_map_reverse =
      (ModelCls.mk .queryCls "query" [("f", ["p", "f"])] [(["p", "f"], ["f"])] none none
        [("p", Ty.model "MA" [.mk "f" "f" .str .str])] []).flatten_map.map
        (fun kv => (kv.2, [kv.1])) :=
  flatten_map_reverse_spec
    [⟨"p", "p", ⟨.queryCls, none, .mEllipsis⟩, Ty.model "MA" [.mk "f" "f" .str .str], false⟩]
    _ rfl _ (List.mem_singleton.mpr rfl)

/-! ### C7: body single-attribute shortcut and multipart retagging -/

theorem lookup_isSome_of_mem_cls (params : List FuncParam) (k : SourceCls)
    (h : ∃ p ∈ params, p.source.cls = k) :
    ∃ l, dlookup (groupBySourceCls params) k = some l ∧ l = clsFilter params k := by
  obtain ⟨p, hp, hpk⟩ := h
  have hmem : p ∈ clsFilter params k := List.mem_filter.mpr ⟨hp, by simp [hpk]⟩
  rw [groups_lookup]
  cases hcf : clsFilter params k with
  | nil => rw [hcf] at hmem; simp at hmem
  | cons a l => simp [hcf]

/-- C7: when the Body group has exactly one parameter and no File or Form
group coexists, the synthesized Body schema records that parameter's name
as the `_single_attr` shortcut and no `_body_params` map; when a Body
group coexists with a File or Form group, the group is retagged to the
`_MultiPartBody` class (no schema of the `Body` class remains), records no
`_single_attr` shortcut, and instead records the per-field mapping from
each body parameter's wire alias to its declared type in `_body_params`. -/
theorem body_single_attr_and_multipart (params : List FuncParam) (models : List ModelCls)
    (h : create_models params = .ok models) :
    (∀ b : FuncParam, clsFilter params .bodyCls = [b] →
       (∀ p ∈ params, p.source.cls ≠ .fileCls ∧ p.source.cls ≠ .formCls) →
       ∃ m ∈ models, m.cls = .bodyCls ∧ m.single_attr = some (some b.name) ∧
         m.body_params = none) ∧
    ((∃ p ∈ params, p.source.cls = .bodyCls) →
       (∃ p ∈ params, p.source.cls = .fileCls ∨ p.source.cls = .formCls) →
       (∃ m ∈ models, m.cls = .multiPartBodyCls ∧ m.single_attr = none ∧
          m.body_params =
            some ((clsFilter params .bodyCls).map (fun p => (p.al, p.annot)))) ∧
       (∀ m ∈ models, m.cls ≠ .bodyCls)) := by
  constructor
  · intro b hb hnoff
    have hfile : clsFilter params .fileCls = [] := by
      apply List.filter_eq_nil_iff.mpr
      intro p hp
      simp [(hnoff p hp).1]
    have hform : clsFilter params .formCls = [] := by
      apply List.filter_eq_nil_iff.mpr
      intro p hp
      simp [(hnoff p hp).2]
    have hbody : dlookup (groupBySourceCls params) .bodyCls = some [b] := by
      rw [groups_lookup, hb]
      rfl
    unfold create_models at h
    simp only [groups_lookup, hb, hfile, hform, List.isEmpty_nil, List.isEmpty_cons,
      Bool.false_eq_true, if_false, if_true, Option.isSome_some, Option.isSome_none,
      Bool.or_self, Bool.and_false] at h
    have hmem : (SourceCls.bodyCls, [b]) ∈ groupBySourceCls params := dlookup_mem _ _ _ hbody
    obtain ⟨m, hm, hbm⟩ := buildAll_exists _ _ _ h _ _ hmem
    obtain ⟨w, cf, hw, _, hmw⟩ := buildModel_shape _ _ _ _ hbm
    simp [buildModelSrc, param_source_tag] at hw
    subst hmw
    refine ⟨_, hm, ?_⟩
    rw [← hw]
    exact ⟨rfl, rfl, rfl⟩
  · intro hbody hff
    obtain ⟨lb, hlb, hlbv⟩ := lookup_isSome_of_mem_cls params .bodyCls hbody
    have hor : ((dlookup (groupBySourceCls params) SourceCls.fileCls).isSome
        || (dlookup (groupBySourceCls params) SourceCls.formCls).isSome) = true := by
      obtain ⟨p, hp, hpk⟩ := hff
      rcases hpk with hpk | hpk
      · obtain ⟨lf, hlf, _⟩ := lookup_isSome_of_mem_cls params .fileCls ⟨p, hp, hpk⟩
        simp [hlf]
      · obtain ⟨lf, hlf, _⟩ := lookup_isSome_of_mem_cls params .formCls ⟨p, hp, hpk⟩
        simp [hlf]
    unfold create_models at h
    simp only [hlb, hor, Option.isSome_some, Bool.true_and, if_true, Option.getD_some] at h
    have hmem : (SourceCls.multiPartBodyCls, lb) ∈
        dset (dremove (groupBySourceCls params) .bodyCls) .multiPartBodyCls lb :=
      dset_self_mem _ _ _
    constructor
    · obtain ⟨m, hm, hbm⟩ := buildAll_exists _ _ _ h _ _ hmem
      obtain ⟨w, cf, hw, _, hmw⟩ := buildModel_shape _ _ _ _ hbm
      simp [buildModelSrc, param_source_tag] at hw
      subst hmw
      refine ⟨_, hm, ?_⟩
      rw [← hw, hlbv]
      exact ⟨rfl, rfl, rfl⟩
    · intro m hm
      obtain ⟨k, args, hkin, hbm2⟩ := buildAll_mem _ _ _ h m hm
      obtain ⟨w, cf, hw, _, hmw⟩ := buildModel_shape _ _ _ _ hbm2
      obtain ⟨hcls, _, _⟩ := buildModelSrc_shape _ _ _ _ hw
      have hmcls : m.cls = k := by subst hmw; simpa using hcls
      rw [hmcls]
      rcases mem_dset _ _ _ _ hkin with h2 | h2
      · exact mem_dremove_ne _ _ _ h2
      · simp only at h2
        rw [h2]
        decide

/-- Witness for C7 at a handler with a lone structured body parameter. -/
theorem body_single_attr_and_multipart_witness :
    ∃ m ∈ [ModelCls.mk .bodyCls "body" [] [] (some (some "data")) none
        [("data", Ty.model "MA" [.mk "f" "f" .str .str])] []],
      m.cls = .bodyCls ∧ m.single_attr = some (some "data") ∧ m.body_params = none :=
  (body_single_attr_and_multipart
      [⟨"data", "data", ⟨.bodyCls, none, .mEllipsis⟩,
        Ty.model "MA" [.mk "f" "f" .str .str], false⟩] _ rfl).1
    ⟨"data", "data", ⟨.bodyCls, none, .mEllipsis⟩,
      Ty.model "MA" [.mk "f" "f" .str .str], false⟩ rfl
    (fun p hp => by
      rw [List.mem_singleton.mp hp]
      exact ⟨by decide, by decide⟩)

/-! ### C2: the flatten map of a structured parameter -/

theorem splitCh_ne_nil (sep : Char) (l : List Char) : splitCh sep l ≠ [] := by
  induction l with
  | nil => simp [splitCh]
  | cons c rest ih =>
      simp only [splitCh]
      by_cases h : c = sep
      · simp [h]
      · simp only [if_neg h]
        cases hr : splitCh sep rest with
        | nil => simp
        | cons a t => simp

theorem splitCh_no_sep (sep : Char) (l : List Char) (h : sep ∉ l) : splitCh sep l = [l] := by
  induction l with
  | nil => rfl
  | cons c rest ih =>
      have hc : ¬ c = sep := fun hc => h (by rw [hc]; exact List.mem_cons_self _ _)
      have hrest : sep ∉ rest := fun hm => h (List.mem_cons_of_mem _ hm)
      simp only [splitCh, if_neg hc, ih hrest]

theorem splitCh_append_sep (sep : Char) (l1 l2 : List Char) (h : sep ∉ l2) :
    splitCh sep (l1 ++ sep :: l2) = splitCh sep l1 ++ [l2] := by
  induction l1 with
  | nil => simp [splitCh, splitCh_no_sep sep l2 h]
  | cons c rest ih =>
      by_cases hc : c = sep
      · subst hc
        show splitCh c (c :: (rest ++ c :: l2)) = splitCh c (c :: rest) ++ [l2]
        simp only [splitCh, if_pos rfl, ih]
        rfl
      · show splitCh sep (c :: (rest ++ sep :: l2)) = splitCh sep (c :: rest) ++ [l2]
        simp only [splitCh, if_neg hc, ih]
        cases hr : splitCh sep rest with
        | nil => exact absurd hr (splitCh_ne_nil sep rest)
        | cons a t => simp

theorem strMk_data (s : String) : String.mk s.data = s := by
  cases s
  rfl

theorem pySplit_sepFree (s : String) (h : sepFreeStr s = true) : pySplit s = [s] := by
  unfold pySplit
  rw [splitCh_no_sep _ _ (of_decide_eq_true h)]
  simp [strMk_data]

theorem pySplit_append (s a : String) (h : sepFreeStr a = true) :
    pySplit (s ++ FLATTEN_PATH_SEP ++ a) = pySplit s ++ [a] := by
  have hsep : sepChar ∉ a.data := of_decide_eq_true h
  have hdata : (s ++ FLATTEN_PATH_SEP ++ a).data = s.data ++ sepChar :: a.data := by
    have hf : FLATTEN_PATH_SEP.data = [sepChar] := by decide
    simp [String.data_append, hf]
  unfold pySplit
  rw [hdata, splitCh_append_sep _ _ _ hsep]
  simp [strMk_data]

mutual

/-- The core flattening correspondence for one type: mapping
`path.split(SEP)` over the pairs yielded by `_model_flatten_map` gives
exactly the spec-side leaf entries, keyed by leaf alias, with the path
prefix accumulated as a list; requires all aliases to be separator-free. -/
theorem model_flatten_map_spec : ∀ (t : Ty), sepFreeTy t = true → ∀ (pre : String),
    (model_flatten_map t pre).map (fun e => (e.1, pySplit e.2)) = leafEntriesTy t (pySplit pre)
  | .model nm fs, h, pre => fieldsWalk_spec fs (by simpa [sepFreeTy] using h) pre
  | .str, _, _ => rfl
  | .intTy, _, _ => rfl
  | .noneTy, _, _ => rfl
  | .ellipsisTy, _, _ => rfl
  | .httpRequest, _, _ => rfl
  | .uploadedFile, _, _ => rfl
  | .anyTy, _, _ => rfl
  | .bareList, _, _ => rfl
  | .bareSet, _, _ => rfl
  | .bareTuple, _, _ => rfl
  | .listOf _, _, _ => rfl
  | .setOf _, _, _ => rfl
  | .tupleOf _, _, _ => rfl
  | .nonClass _, _, _ => rfl

theorem fieldWalk_spec : ∀ (f : PField), sepFreeField f = true → ∀ (pre : String),
    (fieldWalk f pre).map (fun e => (e.1, pySplit e.2)) = leafEntryF f (pySplit pre)
  | .mk n a t o, h, pre => by
      simp only [sepFreeField, Bool.and_eq_true] at h
      simp only [fieldWalk, leafEntryF, is_pydantic_model_eq_isModelClass]
      by_cases hm : isModelClass t = true
      · rw [if_pos hm, if_pos hm,
          model_flatten_map_spec t h.2 (pre ++ FLATTEN_PATH_SEP ++ a),
          pySplit_append _ _ h.1]
      · rw [if_neg hm, if_neg hm]
        simp [pySplit_append _ _ h.1]

theorem fieldsWalk_spec : ∀ (fs : List PField), sepFreeFields fs = true → ∀ (pre : String),
    (fieldsWalk fs pre).map (fun e => (e.1, pySplit e.2)) = leafEntriesF fs (pySplit pre)
  | [], _, _ => rfl
  | f :: rest, h, pre => by
      simp only [sepFreeFields, Bool.and_eq_true] at h
      simp only [fieldsWalk, leafEntriesF, List.map_append,
        fieldWalk_spec f h.1 pre, fieldsWalk_spec rest h.2 pre]

end

theorem insertModelEntries_ok (argName : String) (entries : List (String × String)) :
    ∀ (fm : List (String × List String)) (an : List (String × String)),
    (∀ e ∈ entries, dlookup fm e.1 = none) →
    ((entries.map (fun e => e.1)).Nodup) →
    insertModelEntries argName entries fm an =
      .ok (fm ++ entries.map (fun e => (e.1, pySplit e.2)),
           an ++ entries.map (fun e => (e.1, argName))) := by
  induction entries with
  | nil => intro fm an _ _; simp [insertModelEntries]
  | cons e rest ih =>
      intro fm an hdisj hnd
      obtain ⟨nm, path⟩ := e
      have hn : dlookup fm nm = none := hdisj _ (List.mem_cons_self _ _)
      simp only [List.map_cons, List.nodup_cons, List.mem_map] at hnd
      simp only [insertModelEntries, hn, Option.isSome_none, Bool.false_eq_true, if_false]
      rw [ih (fm ++ [(nm, pySplit path)]) (an ++ [(nm, argName)]) ?_ hnd.2]
      · simp
      · intro e2 he2
        rw [dlookup_append, hdisj e2 (List.mem_cons_of_mem _ he2)]
        have hne : ¬ nm = e2.1 := by
          intro hx
          exact hnd.1 ⟨e2, he2, hx.symm⟩
        simp [dlookup, hne, Option.orElse]

/-- C2 counterexample: for a query parameter `p` whose structured type has
the single leaf field alias `f`, the computed flatten map is
`{"f": ("p", "f")}` — its key is the bare leaf alias `"f"`, not the
compound `"p" + SEP + "f"` name the claim requires. -/
theorem flatten_map_key_counterexample :
    args_flatten_map
        [⟨"p", "p", ⟨.queryCls, none, .mEllipsis⟩,
          Ty.model "MA" [.mk "f" "f" .str .str], false⟩] =
      .ok [("f", ["p", "f"])] ∧
      ("f" : String) ≠ "p" ++ FLATTEN_PATH_SEP ++ "f" := ⟨rfl, by decide⟩

/-- C2 as amended: for every parameter of a flat-source group whose
declared type is a structured model (with separator-free aliases and no
duplicate leaf aliases), the computed flatten map contains exactly one
entry per leaf field; the key (flat wire-level name) of each entry is the
leaf field's OWN alias (not a compound `parentAlias <sep> fieldAlias`
name), and the entry's value is the ordered tuple of path steps — the
parameter's alias followed by the chain of nested field aliases down to
the leaf. -/
theorem flatten_map_of_structured_param (p : FuncParam) (nm : String) (fs : List PField)
    (hannot : p.annot = Ty.model nm fs)
    (hsep : sepFreeFields fs = true)
    (hsepal : sepFreeStr p.al = true)
    (hnodup : ((leafEntriesF fs [p.al]).map (fun e => e.1)).Nodup) :
    args_flatten_map [p] = .ok (leafEntriesF fs [p.al]) := by
  have hkeys : (fieldsWalk fs p.al).map (fun e => (e.1, pySplit e.2)) =
      leafEntriesF fs [p.al] := by
    rw [fieldsWalk_spec fs hsep p.al, pySplit_sepFree _ hsepal]
  have hnd2 : ((fieldsWalk fs p.al).map (fun e => e.1)).Nodup := by
    have : ((fieldsWalk fs p.al).map (fun e => (e.1, pySplit e.2))).map (fun e => e.1) =
        (fieldsWalk fs p.al).map (fun e => e.1) := by
      rw [List.map_map]
      rfl
    rw [← this, hkeys]
    exact hnodup
  unfold args_flatten_map argsFlattenGo
  rw [hannot]
  simp only [is_pydantic_model_eq_isModelClass, isModelClass, if_true]
  rw [show model_flatten_map (Ty.model nm fs) p.al = fieldsWalk fs p.al from rfl]
  rw [insertModelEntries_ok p.name (fieldsWalk fs p.al) [] [] (by simp [dlookup]) hnd2]
  simp only [List.nil_append]
  rw [hkeys]
  rfl

/-- Witness for C2 (amended) at a two-level nested model. -/
theorem flatten_map_of_structured_param_witness :
    args_flatten_map
        [⟨"p", "p", ⟨.queryCls, none, .mEllipsis⟩,
          Ty.model "M1" [.mk "g" "g"
            (Ty.model "M2" [.mk "f" "f" .intTy (.listOf .intTy)])
            (Ty.model "M2" [.mk "f" "f" .intTy (.listOf .intTy)])], false⟩] =
      .ok (leafEntriesF
        [.mk "g" "g"
          (Ty.model "M2" [.mk "f" "f" .intTy (.listOf .intTy)])
          (Ty.model "M2" [.mk "f" "f" .intTy (.listOf .intTy)])] ["p"]) :=
  flatten_map_of_structured_param _ "M1" _ rfl (by decide) (by decide) (by
    simp [leafEntriesF, leafEntryF, leafEntriesTy, isModelClass])

/-! ### C4: duplicate flat wire names -/

theorem dlookup_keyMap {A : Type} (f : String × String → A) (entries : List (String × String))
    (k : String) :
    (dlookup (entries.map (fun e => (e.1, f e))) k).isSome = true ↔ ∃ e ∈ entries, e.1 = k := by
  induction entries with
  | nil => simp [dlookup]
  | cons e rest ih =>
      by_cases h : e.1 = k
      · constructor
        · intro _
          exact ⟨e, List.mem_cons_self _ _, h⟩
        · intro _
          simp [dlookup, h]
      · simp only [List.map_cons, dlookup, if_neg h, ih]
        constructor
        · intro ⟨e2, he2, hk⟩
          exact ⟨e2, List.mem_cons_of_mem _ he2, hk⟩
        · intro ⟨e2, he2, hk⟩
          rcases List.mem_cons.mp he2 with h2 | h2
          · subst h2; exact absurd hk h
          · exact ⟨e2, h2, hk⟩

theorem dlookup_constMap (c : String) (entries : List (String × String)) (k : String)
    (hk : ∃ e ∈ entries, e.1 = k) :
    dlookup (entries.map (fun e => (e.1, c))) k = some c := by
  induction entries with
  | nil => simp at hk
  | cons e rest ih =>
      by_cases h : e.1 = k
      · simp [dlookup, h]
      · simp only [List.map_cons, dlookup, if_neg h]
        obtain ⟨e2, he2, hk2⟩ := hk
        rcases List.mem_cons.mp he2 with h2 | h2
        · subst h2; exact absurd hk2 h
        · exact ih ⟨e2, h2, hk2⟩

theorem insertModelEntries_collide (argName prior : String) (entries : List (String × String)) :
    ∀ (fm : List (String × List String)) (an : List (String × String)),
    ((entries.map (fun e => e.1)).Nodup) →
    (∀ nm2 ∈ entries.map (fun e => e.1),
        (dlookup fm nm2).isSome = true → dlookup an nm2 = some prior) →
    (∃ e ∈ entries, (dlookup fm e.1).isSome = true) →
    ∃ nm2, insertModelEntries argName entries fm an =
      .error (.configError
        ("Duplicated name: '" ++ nm2 ++ "' in params: '" ++ prior ++ "' & '" ++ argName ++ "'")) := by
  induction entries with
  | nil =>
      intro fm an _ _ hex
      simp at hex
  | cons e rest ih =>
      intro fm an hnd hAn hex
      obtain ⟨nm, path⟩ := e
      by_cases hh : (dlookup fm nm).isSome = true
      · have hprior : dlookup an nm = some prior := hAn nm (by simp) hh
        refine ⟨nm, ?_⟩
        simp only [insertModelEntries, hh, if_true, hprior]
      · have hn : dlookup fm nm = none := by
          cases hfm : dlookup fm nm with
          | none => rfl
          | some v => rw [hfm] at hh; simp at hh
        simp only [List.map_cons, List.nodup_cons, List.mem_map] at hnd
        simp only [insertModelEntries, hn, Option.isSome_none, Bool.false_eq_true, if_false]
        refine ih (fm ++ [(nm, pySplit path)]) (an ++ [(nm, argName)]) hnd.2 ?_ ?_
        · intro nm2 hm2 hsome
          have hne : ¬ nm = nm2 := by
            intro hx
            subst hx
            obtain ⟨e2, he2, hk2⟩ := List.mem_map.mp hm2
            exact hnd.1 ⟨e2, he2, hk2⟩
          rw [dlookup_append] at hsome
          cases hfm2 : dlookup fm nm2 with
          | some v =>
              have := hAn nm2 (by simp; right; simpa using hm2) (by simp [hfm2])
              rw [dlookup_append, this]
              simp [Option.orElse]
          | none =>
              rw [hfm2] at hsome
              simp [dlookup, hne, Option.orElse] at hsome
        · obtain ⟨e2, he2, hsome2⟩ := hex
          rcases List.mem_cons.mp he2 with h2 | h2
          · rw [h2] at hsome2
            exact absurd hsome2 hh
          · refine ⟨e2, h2, ?_⟩
            rw [dlookup_append]
            obtain ⟨v, hv⟩ := Option.isSome_iff_exists.mp hsome2
            rw [hv]
            simp [Option.orElse]

/-- C4 counterexample: two plain (non-structured) parameters `pone` and
`ptwo` sharing the wire alias `x` do raise a fatal configuration error,
but its message is `Duplicated name: 'x' also in 'x'` — naming the wire
alias only — and mentions neither conflicting parameter's name. -/
theorem duplicate_name_counterexample :
    args_flatten_map
        [⟨"pone", "x", ⟨.queryCls, none, .mEllipsis⟩, .str, false⟩,
         ⟨"ptwo", "x", ⟨.queryCls, none, .mEllipsis⟩, .str, false⟩] =
      .error (.configError "Duplicated name: 'x' also in 'x'") ∧
      ¬ mentions "Duplicated name: 'x' also in 'x'" "pone" ∧
      ¬ mentions "Duplicated name: 'x' also in 'x'" "ptwo" :=
  ⟨rfl, by decide, by decide⟩

/-- C4 as amended: a flat wire name arising twice within one group raises
a fatal `ConfigError`; when the second contributor is a structured-model
parameter (in particular for two structured-model query parameters with
colliding flattened leaf names), the message names both conflicting
parameters; but when the later contributor is a non-structured parameter,
the message names only the duplicated wire name and the recorded prior
entry (which, for a prior non-structured parameter, is its wire alias
rather than its declared name). -/
theorem duplicate_name_two_models (p1 p2 : FuncParam)
    (h1 : is_pydantic_model p1.annot = true) (h2 : is_pydantic_model p2.annot = true)
    (e1nd : ((model_flatten_map p1.annot p1.al).map (fun e => e.1)).Nodup)
    (e2nd : ((model_flatten_map p2.annot p2.al).map (fun e => e.1)).Nodup)
    (hcol : ∃ nm2, nm2 ∈ (model_flatten_map p1.annot p1.al).map (fun e => e.1) ∧
                   nm2 ∈ (model_flatten_map p2.annot p2.al).map (fun e => e.1)) :
    ∃ msg, args_flatten_map [p1, p2] = .error (.configError msg) ∧
      mentions msg p1.name ∧ mentions msg p2.name := by
  have step1 := insertModelEntries_ok p1.name (model_flatten_map p1.annot p1.al) [] []
    (by simp [dlookup]) e1nd
  have hAn : ∀ nm2 ∈ (model_flatten_map p2.annot p2.al).map (fun e => e.1),
      (dlookup ((model_flatten_map p1.annot p1.al).map (fun e => (e.1, pySplit e.2))) nm2).isSome
        = true →
      dlookup ((model_flatten_map p1.annot p1.al).map (fun e => (e.1, p1.name))) nm2
        = some p1.name := by
    intro nm2 _ hsome
    exact dlookup_constMap _ _ _ ((dlookup_keyMap _ _ _).mp hsome)
  have hex : ∃ e ∈ model_flatten_map p2.annot p2.al,
      (dlookup ((model_flatten_map p1.annot p1.al).map (fun e => (e.1, pySplit e.2))) e.1).isSome
        = true := by
    obtain ⟨nm2, hin1, hin2⟩ := hcol
    obtain ⟨e2, he2, hk2⟩ := List.mem_map.mp hin2
    refine ⟨e2, he2, (dlookup_keyMap _ _ _).mpr ?_⟩
    obtain ⟨e1, he1, hk1⟩ := List.mem_map.mp hin1
    exact ⟨e1, he1, by rw [hk1, hk2]⟩
  obtain ⟨nm2, hstep2⟩ := insertModelEntries_collide p2.name p1.name
    (model_flatten_map p2.annot p2.al)
    ((model_flatten_map p1.annot p1.al).map (fun e => (e.1, pySplit e.2)))
    ((model_flatten_map p1.annot p1.al).map (fun e => (e.1, p1.name)))
    e2nd hAn hex
  refine ⟨"Duplicated name: '" ++ nm2 ++ "' in params: '" ++ p1.name ++ "' & '" ++ p2.name
      ++ "'", ?_, ?_, ?_⟩
  · unfold args_flatten_map
    rw [argsFlattenGo, if_pos h1, step1]
    simp only [List.nil_append]
    rw [argsFlattenGo, if_pos h2, hstep2]
  · exact ⟨("Duplicated name: '" ++ nm2 ++ "' in params: '").data,
      ("' & '" ++ p2.name ++ "'").data, by simp [String.data_append]⟩
  · exact ⟨("Duplicated name: '" ++ nm2 ++ "' in params: '" ++ p1.name ++ "' & '").data,
      ("'").data, by simp [String.data_append]⟩

/-- Witness for C4 (amended): two structured-model query parameters with
the colliding leaf alias `f`; the raised message names both `pone` and
`ptwo`. -/
theorem duplicate_name_two_models_witness :
    ∃ msg, args_flatten_map
        [⟨"pone", "pone", ⟨.queryCls, none, .mEllipsis⟩,
          Ty.model "MA" [.mk "f" "f" .str .str], false⟩,
         ⟨"ptwo", "ptwo", ⟨.queryCls, none, .mEllipsis⟩,
          Ty.model "MB" [.mk "f" "f" .intTy .intTy], false⟩] =
      .error (.configError msg) ∧ mentions msg "pone" ∧ mentions msg "ptwo" :=
  duplicate_name_two_models _ _ rfl rfl (by decide) (by decide) ⟨"f", by decide, by decide⟩

/-! ### C3: which wire names are detected as collections -/

theorem detectLoop_mem (d : List (String × FuncParam)) :
    ∀ (paths : List (List String)) (acc res : List String),
    detectLoop d paths acc = .ok res →
    ∀ x, x ∈ res ↔ x ∈ acc ∨ ∃ p ∈ paths,
      (∃ t, resolvePathTy d p = .ok t ∧ collectionTestOpt t = .ok true) ∧ pathLast p = x := by
  intro paths
  induction paths with
  | nil =>
      intro acc res h x
      simp only [detectLoop, Except.ok.injEq] at h
      subst h
      simp
  | cons p rest ih =>
      intro acc res h x
      rw [detectLoop] at h
      split at h
      · simp at h
      · rename_i t heq
        split at h
        · simp at h
        · rename_i b heq2
          cases b with
          | true =>
              simp only [if_true] at h
              rw [ih _ _ h x, List.mem_append, List.mem_singleton]
              constructor
              · rintro ((hx | hx) | hx)
                · exact Or.inl hx
                · exact Or.inr ⟨p, List.mem_cons_self _ _, ⟨t, heq, heq2⟩, hx.symm⟩
                · obtain ⟨q, hq, hcond, hlast⟩ := hx
                  exact Or.inr ⟨q, List.mem_cons_of_mem _ hq, hcond, hlast⟩
              · rintro (hx | ⟨q, hq, hcond, hlast⟩)
                · exact Or.inl (Or.inl hx)
                · rcases List.mem_cons.mp hq with h2 | h2
                  · subst h2
                    exact Or.inl (Or.inr hlast.symm)
                  · exact Or.inr ⟨q, h2, hcond, hlast⟩
          | false =>
              simp only [Bool.false_eq_true, if_false] at h
              rw [ih _ _ h x]
              constructor
              · rintro (hx | hx)
                · exact Or.inl hx
                · obtain ⟨q, hq, hcond, hlast⟩ := hx
                  exact Or.inr ⟨q, List.mem_cons_of_mem _ hq, hcond, hlast⟩
              · rintro (hx | ⟨q, hq, hcond, hlast⟩)
                · exact Or.inl hx
                · rcases List.mem_cons.mp hq with h2 | h2
                  · subst h2
                    obtain ⟨t2, ht2, hct2⟩ := hcond
                    rw [heq] at ht2
                    injection ht2 with h3
                    subst h3
                    rw [heq2] at hct2
                    simp at hct2
                  · exact Or.inr ⟨q, h2, hcond, hlast⟩

/-- C3 counterexample: a collection-typed parameter with declared name
`n` and wire alias `a` contributes its declared name `n` (not its wire
alias `a`) to the detected collection fields. -/
theorem collection_fields_alias_counterexample :
    detect_collection_fields
        [⟨"n", "a", ⟨.queryCls, none, .mEllipsis⟩, .listOf .intTy, true⟩] [] =
      .ok ["n"] ∧ ("a" : String) ∉ (["n"] : List String) := ⟨rfl, by decide⟩

/-- C3 as amended: whenever `detect_collection_fields` returns without
raising, its result is a list (possibly with duplicates, not a set) whose
members are exactly the union of (a) the DECLARED name — not the wire
alias — of every parameter whose `is_collection` flag is true, and (b)
the last step of every flatten-map path of length at least two whose leaf,
resolved by the alias-first walk with `outer_type_` unwrapping, is a
collection type. -/
theorem detect_collection_fields_spec (args : List FuncParam)
    (fm : List (String × List String)) (res : List String)
    (h : detect_collection_fields args fm = .ok res) (x : String) :
    x ∈ res ↔ (∃ p ∈ args, p.is_collection = true ∧ p.name = x) ∨
      (∃ kv ∈ fm, 1 < kv.2.length ∧
        (∃ t, resolvePathTy (buildArgsD args) kv.2 = .ok t ∧
          collectionTestOpt t = .ok true) ∧
        pathLast kv.2 = x) := by
  have hnames : ∀ y : String,
      y ∈ (args.filter (fun p => p.is_collection)).map (fun p => p.name) ↔
        ∃ p ∈ args, p.is_collection = true ∧ p.name = y := by
    intro y
    constructor
    · intro hy
      obtain ⟨p, hp, hpy⟩ := List.mem_map.mp hy
      obtain ⟨hpa, hpc⟩ := List.mem_filter.mp hp
      exact ⟨p, hpa, hpc, hpy⟩
    · rintro ⟨p, hpa, hpc, hpy⟩
      exact List.mem_map.mpr ⟨p, List.mem_filter.mpr ⟨hpa, hpc⟩, hpy⟩
  unfold detect_collection_fields at h
  by_cases hfm : fm.isEmpty = true
  · rw [if_pos hfm] at h
    have hfm2 : fm = [] := List.isEmpty_iff.mp hfm
    subst hfm2
    simp only [Except.ok.injEq] at h
    subst h
    rw [hnames x]
    simp
  · rw [if_neg hfm] at h
    rw [detectLoop_mem _ _ _ _ h x, hnames x]
    constructor
    · rintro (hx | ⟨p, hp, hcond, hlast⟩)
      · exact Or.inl hx
      · right
        obtain ⟨hpmem, hlen⟩ := List.mem_filter.mp hp
        obtain ⟨kv, hkv, hkveq⟩ := List.mem_map.mp hpmem
        subst hkveq
        exact ⟨kv, hkv, of_decide_eq_true hlen, hcond, hlast⟩
    · rintro (hx | ⟨kv, hkv, hlen, hcond, hlast⟩)
      · exact Or.inl hx
      · right
        refine ⟨kv.2, List.mem_filter.mpr ⟨List.mem_map.mpr ⟨kv, hkv, rfl⟩, ?_⟩, hcond, hlast⟩
        exact decide_eq_true hlen

/-- Witness for C3 (amended) at a collection-typed parameter with distinct
name and alias and an empty flatten map. -/
theorem detect_collection_fields_spec_witness :
    ("n" : String) ∈ (["n"] : List String) ↔
      (∃ p ∈ [(⟨"n", "a", ⟨.queryCls, none, .mEllipsis⟩, .listOf .intTy, true⟩ : FuncParam)],
          p.is_collection = true ∧ p.name = "n") ∨
      (∃ kv ∈ ([] : List (String × List String)), 1 < kv.2.length ∧
        (∃ t, resolvePathTy
            (buildArgsD [⟨"n", "a", ⟨.queryCls, none, .mEllipsis⟩, .listOf .intTy, true⟩])
            kv.2 = .ok t ∧
          collectionTestOpt t = .ok true) ∧
        pathLast kv.2 = "n") :=
  detect_collection_fields_spec
    [⟨"n", "a", ⟨.queryCls, none, .mEllipsis⟩, .listOf .intTy, true⟩] [] ["n"] rfl "n"
